import Mathlib

/-!
Verification of the ChromaASCII quantization-and-codec pipeline.

This file gives a shallow embedding of the core of the repository:
the per-cell quantizer of `src/core/AsciiProcessor.js` (`process`,
`applyGammaContrast`, the color packing and the `drawFrame` unpacking),
the temporal encoder of `VideoEncoder.addFrame`, and the stateful
decoder of `src/core/VideoDecoder.js` (`load`, `loop`).  JavaScript
arrays become Lean lists, objects become structures, nullable fields
become `Option`, and the flat `[index, value, index, value, ...]`
diff arrays become lists of pairs read in the same order.  Machine
numbers are modelled with `Nat`/`Int`/`ℚ`; the only floating point
computations the claims touch are either structural (order of
operations, modelled over `ℝ`) or exact on the inputs involved.
-/

/-- One RGB sample, three 8-bit channels, as read from the adjusted
image data of `AsciiProcessor.process`. -/
structure RGB where
  r : Nat
  g : Nat
  b : Nat
deriving DecidableEq

/-- A Frame as assembled by `AsciiProcessor.process` and consumed by the
codec: the row-major character grid `text` (with a newline after every
`width` cells), the palette indices, the optional packed colors with the
`-1` sentinel, the grid dimensions and the charset.  Rendering-only
fields (`charSize`, `resolution`, `mode`, `colorDepth`, `colorMode`) are
not read by the encoder or by delta application and are omitted. -/
structure Frame where
  text : List Char
  charIndices : List Nat
  colors : Option (List Int)
  width : Nat
  height : Nat
  charset : List Char
deriving DecidableEq

/-- The empty frame, used only as an out-of-range list default. -/
def defaultFrame : Frame := ⟨[], [], none, 0, 0, []⟩

/-- A serialized frame record of the container: `full` is a keyframe
(`type: "f"`), `delta` a sparse patch (`type: "d"`) with optional color
diffs `cd`, legacy per-character text diffs `td`, and palette-index
diffs `id`, each a list of index/value pairs. -/
inductive Record where
  | full (t : Nat) (d : Frame)
  | delta (t : Nat) (cd : Option (List (Nat × Int)))
      (td : Option (List (Nat × Char))) (id : Option (List (Nat × Nat)))
deriving DecidableEq

/-- Timestamp `t` of a record. -/
def Record.t : Record → Nat
  | .full t _ => t
  | .delta t _ _ _ => t

/-- Whether a record is a keyframe. -/
def Record.isFull : Record → Bool
  | .full _ _ => true
  | .delta _ _ _ _ => false

/-- Setting list positions from a list of index/value pairs, in order:
the loop `arr[idx] = val` over a flat diff array. -/
def applyPairs (l : List α) (ps : List (Nat × α)) : List α :=
  ps.foldl (fun acc p => acc.set p.1 p.2) l

/-- The element-wise diff loop of `VideoEncoder.addFrame`: for every
position `i` of `cur` whose value differs from `last` at `i`, the pair
`(i, cur[i])` is collected. -/
def diffPairs [DecidableEq α] (cur last : List α) : List (Nat × α) :=
  (List.range cur.length).filterMap fun i =>
    match cur[i]? with
    | some v => if last[i]? ≠ some v then some (i, v) else none
    | none => none

/-- The delta branch of `VideoEncoder.addFrame`: colors are diffed only
when both frames carry a colors array, palette indices are always
diffed, and a diff field is omitted (`undefined`) when empty.  The
encoder never emits the legacy `td` field. -/
def computeDelta (lf fd : Frame) (time : Nat) : Record :=
  let colorDiff : List (Nat × Int) :=
    match fd.colors, lf.colors with
    | some cur, some last => diffPairs cur last
    | _, _ => []
  let textDiff : List (Nat × Nat) := diffPairs fd.charIndices lf.charIndices
  Record.delta time
    (if colorDiff.length > 0 then some colorDiff else none)
    none
    (if textDiff.length > 0 then some textDiff else none)

/-- State of `VideoEncoder`. -/
structure EncState where
  frames : List Record
  isEncoding : Bool
  lastFrameData : Option Frame
  framesSinceKeyframe : Nat
  keyframeInterval : Nat
deriving DecidableEq

/-- A started encoder session (`VideoEncoder.start`) with the given
keyframe interval; the constructor default is 30. -/
def startedState (k : Nat) : EncState :=
  ⟨[], true, none, 0, k⟩

/-- `VideoEncoder.addFrame`: emit a keyframe when there is no previous
frame, the interval counter has been reached, or the dimensions
changed; otherwise emit a delta.  The previous frame is replaced by a
deep copy of the incoming frame in either case. -/
def addFrame (st : EncState) (fd : Frame) (time : Nat) : EncState :=
  if st.isEncoding then
    let pushKey : EncState :=
      { st with frames := st.frames ++ [Record.full time fd],
                framesSinceKeyframe := 0, lastFrameData := some fd }
    match st.lastFrameData with
    | none => pushKey
    | some lf =>
      if st.framesSinceKeyframe ≥ st.keyframeInterval ∨
          lf.width ≠ fd.width ∨ lf.height ≠ fd.height then
        pushKey
      else
        { st with frames := st.frames ++ [computeDelta lf fd time],
                  framesSinceKeyframe := st.framesSinceKeyframe + 1,
                  lastFrameData := some fd }
  else st

/-- Feeding `n` copies of the same frame to the encoder, the i-th at
time `i`. -/
def feedN (st : EncState) (fd : Frame) (n : Nat) : EncState :=
  (List.range n).foldl (fun s i => addFrame s fd i) st

/-- Feeding a sequence of frames to the encoder in one session, the
first at time `t` and each following frame one tick later. -/
def feedFrom (st : EncState) (t : Nat) : List Frame → EncState
  | [] => st
  | fd :: rest => feedFrom (addFrame st fd t) (t + 1) rest

/-- The default charset of the decoder (space dot colon and so on),
substituted
when the reconstructed frame carries no usable charset. -/
def defaultCharset : List Char := " .:-=+*#%@".toList

/-- Translation of a data index (no newlines) to a text index
(one newline per row), as in `VideoDecoder.loop`. -/
def toTextIdx (dataIdx w : Nat) : Nat :=
  (dataIdx / w) * (w + 1) + dataIdx % w

/-- Delta application of `VideoDecoder.loop` on a reconstructed frame:
`cd` patches the colors in place, `td` patches single characters of the
text, `id` patches the text through the charset and the `charIndices`
array.  The unreachable null-colors crash of the source (a `cd` patch
on a frame without colors) is modelled as leaving `colors` absent. -/
def applyDelta (f0 : Frame) (cd : Option (List (Nat × Int)))
    (td : Option (List (Nat × Char))) (id : Option (List (Nat × Nat))) : Frame :=
  let f1 : Frame :=
    match cd with
    | some ps => { f0 with colors := f0.colors.map (fun cl => applyPairs cl ps) }
    | none => f0
  let f2 : Frame :=
    match td with
    | some ps =>
      { f1 with text := applyPairs f1.text (ps.map fun p => (toTextIdx p.1 f1.width, p.2)) }
    | none => f1
  match id with
  | some ps =>
    let cs := if f2.charset = [] then defaultCharset else f2.charset
    { f2 with
      text := applyPairs f2.text (ps.map fun p => (toTextIdx p.1 f2.width, cs.getD p.2 ' ')),
      charIndices := applyPairs f2.charIndices ps }
  | none => f2

/-- Applying one record to the reconstruction: a keyframe replaces it
wholesale (a deep copy of the stored frame), a delta patches it, and a
delta with no reconstruction yet is skipped. -/
def applyRecordData (recon : Option Frame) (rec : Record) : Option Frame :=
  match rec with
  | .full _ d => some d
  | .delta _ cd td id =>
    match recon with
    | none => none
    | some f => some (applyDelta f cd td id)

/-- Reconstruction state of `VideoDecoder`: the current frame and the
index of the last applied record (`-1` before any). -/
structure DecState where
  reconstructedFrame : Option Frame
  lastProcessedIndex : Int
deriving DecidableEq

/-- `VideoDecoder.resetState`, also the state right after `load`. -/
def DecState.init : DecState := ⟨none, -1⟩

/-- One iteration of the catch-up loop: apply the record at index `i`
and remember `i` as last processed. -/
def applyStep (s : DecState) (rec : Record) (i : Nat) : DecState :=
  ⟨applyRecordData s.reconstructedFrame rec, (i : Int)⟩

/-- The catch-up loop of `VideoDecoder.loop`: apply every record from
`lastProcessedIndex + 1` up to and including `fi`, in order. -/
def applyUpTo (frames : List Record) (st : DecState) (fi : Nat) : DecState :=
  let lo := (st.lastProcessedIndex + 1).toNat
  (List.range' lo (fi + 1 - lo)).foldl
    (fun s i => applyStep s (frames.getD i (Record.full 0 defaultFrame)) i) st

/-- The target-index scan of `VideoDecoder.loop`: the highest index
whose timestamp is at most `currentTime`; the scan never moves past the
first record with a larger timestamp, and the index stays 0 when even
the first record is in the future. -/
def targetIndex (frames : List Record) (currentTime : Nat) : Nat :=
  (frames.takeWhile (fun r => r.t ≤ currentTime)).length - 1

/-- One playing tick of `VideoDecoder.loop`: compute the elapsed time
modulo the duration, find the target record index, reset when the
target lies behind the last processed index, then catch up. -/
def tick (frames : List Record) (duration elapsedRaw : Nat) (st : DecState) : DecState :=
  let currentTime := elapsedRaw % duration
  let frameIndex := targetIndex frames currentTime
  let st1 := if (frameIndex : Int) < st.lastProcessedIndex then DecState.init else st
  applyUpTo frames st1 frameIndex

/-- The 4x4 Bayer threshold matrix of `utils/BayerMatrix.js`. -/
def BayerMatrix4x4 : List (List Nat) :=
  [[0, 8, 2, 10], [12, 4, 14, 6], [3, 11, 1, 9], [15, 7, 13, 5]]

/-- `getBayerValue(x, y)` of `utils/BayerMatrix.js`. -/
def getBayerValue (x y : Nat) : Nat :=
  (BayerMatrix4x4.getD (y % 4) []).getD (x % 4) 0

/-- `AsciiProcessor.applyGammaContrast`, over the reals: normalize,
multiply by exposure, add brightness over 100, raise the value clamped
non-negative to the power of one over gamma, apply the contrast
formula, clamp to the unit interval and scale back to 255. -/
noncomputable def applyGammaContrast (value gamma contrast brightness exposure : ℝ) : ℝ :=
  let v0 := value / 255
  let v1 := v0 * exposure
  let v2 := v1 + brightness / 100
  let v3 := Real.rpow (max v2 0) (1 / gamma)
  let factor := 1 + contrast / 100
  let v4 := (v3 - 0.5) * factor + 0.5
  min (max v4 0) 1 * 255

/-- The adjusted-luminance computation of `AsciiProcessor.process`
(lines 119 to 120): the BT.709 weighted sum of the three adjusted
channels, inverted when requested. -/
noncomputable def processLuminance (rAdj gAdj bAdj : ℝ) (inverted : Bool) : ℝ :=
  let lum := 0.2126 * rAdj + 0.7152 * gAdj + 0.0722 * bAdj
  if inverted then 255 - lum else lum

/-- The spec-side tone transform, written as one composition in the
exact order stated by the claim: divide by 255, multiply by exposure,
add brightness over 100, raise the non-negative clamp to the power one
over gamma, apply the contrast line, clamp to the unit interval and
multiply by 255. -/
noncomputable def toneTransformSpec (value gamma contrast brightness exposure : ℝ) : ℝ :=
  min (max ((Real.rpow (max (value / 255 * exposure + brightness / 100) 0) (1 / gamma) - 0.5)
      * (1 + contrast / 100) + 0.5) 0) 1 * 255

/-- The spec-side luminance: the BT.709 weighted sum of the adjusted
channels, replaced by its reflection at 255 when inverted. -/
noncomputable def luminanceSpec (rAdj gAdj bAdj : ℝ) (inverted : Bool) : ℝ :=
  if inverted then 255 - (0.2126 * rAdj + 0.7152 * gAdj + 0.0722 * bAdj)
  else 0.2126 * rAdj + 0.7152 * gAdj + 0.0722 * bAdj

/-- The integer adjusted luminance stored in `adjLuminanceMap` and used
for the histogram: the BT.709 sum of the already adjusted channels
(exact rationals; the weights sum to one so integer inputs give exact
results), inverted on demand, clamped to [0, 255] and floored. -/
def adjLum (inverted : Bool) (p : RGB) : Nat :=
  let lum : ℚ := 2126 / 10000 * p.r + 7152 / 10000 * p.g + 722 / 10000 * p.b
  let lum := if inverted then 255 - lum else lum
  (Int.floor (max 0 (min 255 lum))).toNat

/-- The 256-bin luminance histogram of `AsciiProcessor.process`: the
number of pixels whose adjusted luminance equals `v`. -/
def histogram (inverted : Bool) (pixels : List RGB) (v : Nat) : Nat :=
  (pixels.filter (fun p => adjLum inverted p = v)).length

/-- The running cumulative histogram: `cdf[v]` is the number of pixels
with adjusted luminance at most `v`. -/
def cdfAt (hist : Nat → Nat) (v : Nat) : Nat :=
  ((List.range (v + 1)).map hist).sum

/-- The `cdfMin` of `AsciiProcessor.process`: the accumulated count at
the first occupied histogram bin, 0 when the histogram is empty. -/
def cdfMinOf (hist : Nat → Nat) : Nat :=
  match (List.range 256).find? (fun i => decide (0 < hist i)) with
  | some i => cdfAt hist i
  | none => 0

/-- The normalized histogram-equalization curve: the classic CDF
formula with CDF-min subtraction; the effective range falls back to 1
when it is zero (the `|| 1` guard of the source). -/
def normalizedCdf (total : Nat) (hist : Nat → Nat) (v : Nat) : ℚ :=
  let range : ℚ := if (total : ℚ) - cdfMinOf hist = 0 then 1 else (total : ℚ) - cdfMinOf hist
  ((cdfAt hist v : ℚ) - cdfMinOf hist) / range * 255

/-- The color packing of `AsciiProcessor.process`: each channel is
right-shifted by 8 minus its bit count and the channels are packed with
the per-depth shifts; depths other than 4, 8 and 12 use the raw 24-bit
layout. -/
def packColor (depth r g b : Nat) : Nat :=
  if depth = 4 then ((r >>> 7) <<< 3) ||| ((g >>> 6) <<< 1) ||| (b >>> 7)
  else if depth = 8 then ((r >>> 5) <<< 5) ||| ((g >>> 5) <<< 2) ||| (b >>> 6)
  else if depth = 12 then ((r >>> 4) <<< 8) ||| ((g >>> 4) <<< 4) ||| (b >>> 4)
  else ((r <<< 16) ||| (g <<< 8)) ||| b

/-- The color unpacking of `AsciiProcessor.drawFrame`: mask out each
channel and scale it by the per-depth step constant. -/
def unpackColor (depth col : Nat) : Nat × Nat × Nat :=
  if depth = 4 then (((col >>> 3) &&& 1) * 255, ((col >>> 1) &&& 3) * 85, (col &&& 1) * 255)
  else if depth = 8 then (((col >>> 5) &&& 7) * 36, ((col >>> 2) &&& 7) * 36, (col &&& 3) * 85)
  else if depth = 12 then (((col >>> 8) &&& 15) * 17, ((col >>> 4) &&& 15) * 17, (col &&& 15) * 17)
  else ((col >>> 16) &&& 255, (col >>> 8) &&& 255, col &&& 255)

/-- The per-channel quantization step sizes claimed by the spec:
2 to the power of 8 minus the bit count of the channel, per depth. -/
def channelSteps (depth : Nat) : Nat × Nat × Nat :=
  if depth = 4 then (128, 64, 128)
  else if depth = 8 then (32, 32, 64)
  else if depth = 12 then (16, 16, 16)
  else (1, 1, 1)

/-- Rendering mode of the processor. -/
inductive Mode where
  | grayscale
  | dither
  | binary
  | block
deriving DecidableEq

/-- Color mode of the processor. -/
inductive CMode where
  | color
  | mono
  | rainbow
deriving DecidableEq

/-- The processor options read inside the cell loop.  The two binary
symbols are single characters, as in the shipped configuration. -/
structure Options where
  charset : List Char
  mode : Mode
  colorMode : CMode
  colorDepth : Nat
  binaryThreshold : ℚ
  binaryLight : Char
  binaryDark : Char
  autoLevel : Bool
  inverted : Bool

/-- The adjusted sample raster: dimensions and a flat row-major pixel
accessor, standing for the `adjustedData` array of the source. -/
structure Image where
  width : Nat
  height : Nat
  pix : Nat → RGB

/-- One output cell: the drawn character, the palette index and the
packed color (or the sentinel -1). -/
structure Cell where
  ch : Char
  idx : Nat
  colorPacked : Int
deriving DecidableEq

/-- The index clamp `Math.max(0, Math.min(idx, charsetLen - 1))`. -/
def clampIdx (v : Int) (len : Nat) : Nat :=
  (max 0 (min v ((len : Int) - 1))).toNat

/-- The fixed block-mode palette. -/
def blockCharset : List Char := [' ', '▀', '▄', '█']

/-- The packed color of a standard-geometry cell: the adjusted channels
of its single pixel at the configured depth, or the -1 sentinel outside
color mode. -/
def stdColor (o : Options) (p : RGB) : Int :=
  if o.colorMode = CMode.color then (packColor o.colorDepth p.r p.g p.b : Int) else -1

/-- The body of the cell loop of `AsciiProcessor.process` for the cell
at column `x` and source row `y`: block geometry thresholds two
vertically adjacent pixels (the lower one clamped to the last row) and
packs the color of the top pixel; binary, dither and grayscale operate
on the single pixel of the cell, with the Bayer perturbations and the
optional auto-level remapping `ncdf` of the source. -/
def processCell (o : Options) (img : Image) (ncdf : Nat → ℚ) (x y : Nat) : Cell :=
  if o.mode = Mode.block then
    let top := img.pix (y * img.width + x)
    let bot := img.pix (min (y + 1) (img.height - 1) * img.width + x)
    let brT0 := adjLum o.inverted top
    let brB0 := adjLum o.inverted bot
    let brT : ℚ := if o.autoLevel then ncdf brT0 else brT0
    let brB : ℚ := if o.autoLevel then ncdf brB0 else brB0
    let tOn : Bool := decide (brT > 255 / 2)
    let bOn : Bool := decide (brB > 255 / 2)
    let idx := (if tOn then 1 else 0) + (if bOn then 1 else 0) * 2
    let color : Int :=
      if o.colorMode = CMode.color then (packColor o.colorDepth top.r top.g top.b : Int) else -1
    ⟨blockCharset.getD idx ' ', idx, color⟩
  else
    let p := img.pix (y * img.width + x)
    let br0 := adjLum o.inverted p
    if o.mode = Mode.binary then
      let bayer := getBayerValue x y
      let dithered : ℚ := br0 + ((bayer : ℚ) / 16 - 1 / 2) * 32
      let idx := if dithered > o.binaryThreshold then 1 else 0
      ⟨if idx = 1 then o.binaryLight else o.binaryDark, idx, stdColor o p⟩
    else if o.mode = Mode.dither then
      let bayer := getBayerValue x y
      let t : ℚ := ((bayer : ℚ) + 1 / 2) / 16
      let br : ℚ := if o.autoLevel then ncdf br0 else br0
      let len := o.charset.length
      let idx := clampIdx (Int.floor ((br / 256 + (t - 1 / 2) / len) * len)) len
      ⟨o.charset.getD idx ' ', idx, stdColor o p⟩
    else
      let br : ℚ := if o.autoLevel then ncdf br0 else br0
      let len := o.charset.length
      let idx := clampIdx (Int.floor (br / 256 * len)) len
      ⟨o.charset.getD idx ' ', idx, stdColor o p⟩

/-- The charset stored on the assembled frame: the fixed block palette
in block mode, the two binary symbols in binary mode, the configured
charset otherwise. -/
def finalCharset (o : Options) : List Char :=
  if o.mode = Mode.block then blockCharset
  else if o.mode = Mode.binary then [o.binaryDark, o.binaryLight]
  else o.charset

/-- The histogram-equalization curve of one `process` run, computed
over all pixels of the raster. -/
def procNcdf (o : Options) (img : Image) : Nat → ℚ :=
  fun v => normalizedCdf (img.width * img.height)
    (histogram o.inverted ((List.range (img.width * img.height)).map img.pix)) v

/-- The output height of `process`: the ceiling of half the input
height in block mode (two source rows per cell row), the input height
otherwise. -/
def procOutHeight (o : Options) (img : Image) : Nat :=
  if o.mode = Mode.block then (img.height + 1) / 2 else img.height

/-- The source rows visited by the cell loop: step 2 in block mode,
step 1 otherwise. -/
def procRowYs (o : Options) (img : Image) : List Nat :=
  if o.mode = Mode.block then (List.range (procOutHeight o img)).map (fun r => r * 2)
  else List.range img.height

/-- One row of output cells. -/
def procRowCells (o : Options) (img : Image) (y : Nat) : List Cell :=
  (List.range img.width).map (fun x => processCell o img (procNcdf o img) x y)

/-- All output cells, row-major. -/
def procCells (o : Options) (img : Image) : List Cell :=
  (procRowYs o img).flatMap (procRowCells o img)

/-- `AsciiProcessor.process` from the adjusted raster to the assembled
frame: `text` receives one newline after each row, `charIndices` and
`colors` collect the per-cell values, and `colors` is only present in
color mode. -/
def processFrame (o : Options) (img : Image) : Frame :=
  ⟨(procRowYs o img).flatMap (fun y => (procRowCells o img y).map Cell.ch ++ ['\n']),
   (procCells o img).map Cell.idx,
   if o.colorMode = CMode.color then some ((procCells o img).map Cell.colorPacked) else none,
   img.width, procOutHeight o img, finalCharset o⟩

/-- Frame used by the seek witness. -/
def seekFrameA : Frame := ⟨['a', '\n'], [0], none, 1, 1, ['a', 'b']⟩

/-- Records used by the seek witness: timestamps 0, 100 and 250. -/
def seekRecords : List Record :=
  [Record.full 0 seekFrameA,
   Record.delta 100 none none (some [(0, 1)]),
   Record.delta 250 none none (some [(0, 0)])]

/-- A tiny one-cell frame shared by concrete witnesses. -/
def tinyFrame : Frame := ⟨['a', '\n'], [0], none, 1, 1, ['a']⟩

/-- A tiny two-cell frame of different dimensions. -/
def tinyFrame2 : Frame := ⟨['a', 'a', '\n'], [0, 0], none, 2, 1, ['a']⟩

/-- A tiny one-cell frame with the same dimensions as `tinyFrame` but
different content. -/
def tinyFrameB : Frame := ⟨['b', '\n'], [1], none, 1, 1, ['a', 'b']⟩

/-- A parsed JSON document, the possible results of the external
`JSON.parse`. -/
inductive Json where
  | null
  | bool (b : Bool)
  | num (n : Int)
  | str (s : String)
  | arr (xs : List Json)
  | obj (kvs : List (String × Json))

/-- The schema check of `VideoDecoder.load`: the document must carry a
`frames` member that is an array (`!this.data.frames ||
!Array.isArray(this.data.frames)` rejects everything else; a JSON array
is always truthy, even empty). -/
def hasFramesArray : Json → Bool
  | Json.obj kvs =>
    match kvs.lookup "frames" with
    | some (Json.arr _) => true
    | _ => false
  | _ => false

/-- The full field state of `VideoDecoder`: the loaded document and the
reconstruction state. -/
structure VDState where
  data : Option Json
  reconstructedFrame : Option Frame
  lastProcessedIndex : Int

/-- Result of a load. -/
inductive LoadOutcome where
  | ok
  | err (msg : String)
deriving DecidableEq

/-- The whitespace trim of a JavaScript string, over its characters. -/
def jsTrim (s : List Char) : List Char :=
  ((s.dropWhile Char.isWhitespace).reverse.dropWhile Char.isWhitespace).reverse

/-- The legacy-marker test of the source: the trimmed text begins
with the four characters ASCV. -/
def startsWithASCV (s : List Char) : Bool :=
  List.isPrefixOf ['A', 'S', 'C', 'V'] (jsTrim s)

/-- `VideoDecoder.load`.  The text of the blob is `raw` (a JavaScript
string, as its characters); the external `JSON.parse` is modelled by
the input `parsed`, which is `none` exactly when parsing throws.  The
source assigns `this.data = JSON.parse(text)` before the schema check,
so the schema failure path keeps the freshly parsed document in
`data`; only a success resets the reconstruction state. -/
def load (raw : List Char) (parsed : Option Json) (st : VDState) : LoadOutcome × VDState :=
  if startsWithASCV raw then
    (LoadOutcome.err "Legacy ASCV format detected. Please re-encode.", st)
  else
    match parsed with
    | none => (LoadOutcome.err "Invalid JSON format.", st)
    | some j =>
      let st1 : VDState := { st with data := some j }
      if hasFramesArray j = false then
        (LoadOutcome.err "Invalid schema.", st1)
      else
        (LoadOutcome.ok, { st1 with reconstructedFrame := none, lastProcessedIndex := -1 })

/-- The row-major character grid determined by palette indices: each
row is the charset image of its `width` indices followed by one
newline, exactly the `text` layout written by `process`. -/
def renderText (ci : List Nat) (w h : Nat) (cs : List Char) : List Char :=
  (List.range h).flatMap fun r =>
    ((List.range w).map fun c => cs.getD (ci.getD (r * w + c) 0) ' ') ++ ['\n']

/-- Well-formedness of a frame as assembled by `process`: the palette
indices fill the grid, a colors array (when present) fills the grid,
and the text is the rendered grid of the palette indices. -/
def FrameWF (f : Frame) : Prop :=
  f.charIndices.length = f.width * f.height ∧
  (∀ cl, f.colors = some cl → cl.length = f.width * f.height) ∧
  f.text = renderText f.charIndices f.width f.height f.charset

/-- C7: the per-channel adjustment of `applyGammaContrast` equals the
composition stated by the spec, in the exact order divide by 255,
multiply by exposure, add brightness over 100, raise the non-negative
clamp to the power one over gamma, apply the contrast line, clamp and
scale by 255; and the per-pixel luminance of `process` is the BT.709
weighted sum of the adjusted channels, reflected at 255 when inverted. -/
theorem toneTransformMatchesSpec (value gamma contrast brightness exposure rAdj gAdj bAdj : ℝ)
    (inverted : Bool) :
    applyGammaContrast value gamma contrast brightness exposure =
      toneTransformSpec value gamma contrast brightness exposure ∧
    processLuminance rAdj gAdj bAdj inverted = luminanceSpec rAdj gAdj bAdj inverted := by
  constructor
  · rfl
  · unfold processLuminance luminanceSpec
    cases inverted <;> simp

/-- C9: applying a delta record when no keyframe has been applied yet
(no reconstructed frame) leaves the reconstruction absent, produces no
failure, and the catch-up loop simply advances past the record. -/
theorem deltaBeforeKeyframeSkipped (k : Int) (t : Nat) (cd : Option (List (Nat × Int)))
    (td : Option (List (Nat × Char))) (id : Option (List (Nat × Nat))) (i : Nat) :
    applyRecordData none (Record.delta t cd td id) = none ∧
    applyStep ⟨none, k⟩ (Record.delta t cd td id) i = ⟨none, (i : Int)⟩ := by
  constructor <;> rfl

/-- C5: on a tick whose target record index lies strictly behind the
last processed index, the decoder discards its state and replays the
records from index 0 up to the target from scratch. -/
theorem tickResetsOnBackwardSeek (frames : List Record) (duration elapsedRaw : Nat)
    (st : DecState)
    (h : (targetIndex frames (elapsedRaw % duration) : Int) < st.lastProcessedIndex) :
    tick frames duration elapsedRaw st =
      (List.range (targetIndex frames (elapsedRaw % duration) + 1)).foldl
        (fun s i => applyStep s (frames.getD i (Record.full 0 defaultFrame)) i)
        DecState.init := by
  unfold tick applyUpTo
  dsimp only
  rw [if_pos h]
  have h0 : ((DecState.init.lastProcessedIndex + 1).toNat) = 0 := by decide
  rw [h0, List.range_eq_range']
  simp

/-- Witness for C5: with timestamps 0, 100, 250 and duration 300, a
tick at elapsed 280 followed by a tick at elapsed 20 reproduces the
replay of record 0 alone from the initial state. -/
theorem tickResetsOnBackwardSeek_witness :
    (targetIndex seekRecords (20 % 300) : Int) <
      (tick seekRecords 300 280 DecState.init).lastProcessedIndex ∧
    tick seekRecords 300 20 (tick seekRecords 300 280 DecState.init) =
      applyStep DecState.init (Record.full 0 seekFrameA) 0 := by
  refine ⟨by decide, ?_⟩
  exact (tickResetsOnBackwardSeek seekRecords 300 20 (tick seekRecords 300 280 DecState.init)
    (by decide)).trans (by decide)

/-- Unpacking after packing at depth 4 yields each channel scaled from
its shifted bits. -/
lemma unpack_pack_4 (r g b : Nat) (hr : r < 256) (hg : g < 256) (hb : b < 256) :
    unpackColor 4 (packColor 4 r g b) = ((r >>> 7) * 255, (g >>> 6) * 85, (b >>> 7) * 255) := by
  have ha : r >>> 7 < 2 := by simp [Nat.shiftRight_eq_div_pow]; omega
  have hc : g >>> 6 < 4 := by simp [Nat.shiftRight_eq_div_pow]; omega
  have he : b >>> 7 < 2 := by simp [Nat.shiftRight_eq_div_pow]; omega
  have key : ∀ a < 2, ∀ c < 4, ∀ e < 2,
      unpackColor 4 (((a <<< 3) ||| (c <<< 1)) ||| e) = (a * 255, c * 85, e * 255) := by decide
  have hp : packColor 4 r g b = (((r >>> 7) <<< 3) ||| ((g >>> 6) <<< 1)) ||| (b >>> 7) := rfl
  rw [hp]
  exact key _ ha _ hc _ he

/-- Unpacking after packing at depth 8 yields each channel scaled from
its shifted bits. -/
lemma unpack_pack_8 (r g b : Nat) (hr : r < 256) (hg : g < 256) (hb : b < 256) :
    unpackColor 8 (packColor 8 r g b) = ((r >>> 5) * 36, (g >>> 5) * 36, (b >>> 6) * 85) := by
  have ha : r >>> 5 < 8 := by simp [Nat.shiftRight_eq_div_pow]; omega
  have hc : g >>> 5 < 8 := by simp [Nat.shiftRight_eq_div_pow]; omega
  have he : b >>> 6 < 4 := by simp [Nat.shiftRight_eq_div_pow]; omega
  have key : ∀ a < 8, ∀ c < 8, ∀ e < 4,
      unpackColor 8 (((a <<< 5) ||| (c <<< 2)) ||| e) = (a * 36, c * 36, e * 85) := by decide
  have hp : packColor 8 r g b = (((r >>> 5) <<< 5) ||| ((g >>> 5) <<< 2)) ||| (b >>> 6) := rfl
  rw [hp]
  exact key _ ha _ hc _ he

/-- Unpacking after packing at depth 12 yields each channel scaled from
its shifted bits. -/
lemma unpack_pack_12 (r g b : Nat) (hr : r < 256) (hg : g < 256) (hb : b < 256) :
    unpackColor 12 (packColor 12 r g b) = ((r >>> 4) * 17, (g >>> 4) * 17, (b >>> 4) * 17) := by
  have ha : r >>> 4 < 16 := by simp [Nat.shiftRight_eq_div_pow]; omega
  have hc : g >>> 4 < 16 := by simp [Nat.shiftRight_eq_div_pow]; omega
  have he : b >>> 4 < 16 := by simp [Nat.shiftRight_eq_div_pow]; omega
  have key : ∀ a < 16, ∀ c < 16, ∀ e < 16,
      unpackColor 12 (((a <<< 8) ||| (c <<< 4)) ||| e) = (a * 17, c * 17, e * 17) := by decide
  have hp : packColor 12 r g b = (((r >>> 4) <<< 8) ||| ((g >>> 4) <<< 4)) ||| (b >>> 4) := rfl
  rw [hp]
  exact key _ ha _ hc _ he

/-- Packing at depth 24 is the plain base-256 layout. -/
lemma pack_24_eq (r g b : Nat) (hg : g < 256) (hb : b < 256) :
    packColor 24 r g b = r * 65536 + g * 256 + b := by
  have hp : packColor 24 r g b = ((r <<< 16) ||| (g <<< 8)) ||| b := rfl
  have h1 : g <<< 8 = 2 ^ 8 * g := by rw [Nat.shiftLeft_eq]; ring
  have h2 : r <<< 16 = 2 ^ 16 * r := by rw [Nat.shiftLeft_eq]; ring
  have h3 : (2 : Nat) ^ 8 * g < 2 ^ 16 := by norm_num; omega
  have h4 : (2 : Nat) ^ 16 * r ||| 2 ^ 8 * g = 2 ^ 16 * r + 2 ^ 8 * g :=
    (Nat.mul_add_lt_is_or h3 r).symm
  have h5 : (2 : Nat) ^ 16 * r + 2 ^ 8 * g = 2 ^ 8 * (2 ^ 8 * r + g) := by ring
  have h6 : (2 : Nat) ^ 8 * (2 ^ 8 * r + g) ||| b = 2 ^ 8 * (2 ^ 8 * r + g) + b :=
    (Nat.mul_add_lt_is_or (by norm_num; omega) (2 ^ 8 * r + g)).symm
  rw [hp, h1, h2, h4, h5, h6]
  ring

/-- Unpacking at depth 24 recovers the exact channels. -/
lemma unpack_pack_24 (r g b : Nat) (hr : r < 256) (hg : g < 256) (hb : b < 256) :
    unpackColor 24 (packColor 24 r g b) = (r, g, b) := by
  rw [pack_24_eq r g b hg hb]
  have hu : ∀ p : Nat, unpackColor 24 p = ((p >>> 16) &&& 255, (p >>> 8) &&& 255, p &&& 255) :=
    fun p => rfl
  rw [hu]
  have hm : ∀ x : Nat, x &&& 255 = x % 256 := by
    intro x
    have := Nat.and_pow_two_sub_one_eq_mod x 8
    norm_num at this
    exact this
  have hs16 : ∀ x : Nat, x >>> 16 = x / 65536 := by
    intro x
    rw [Nat.shiftRight_eq_div_pow]
  have hs8 : ∀ x : Nat, x >>> 8 = x / 256 := by
    intro x
    rw [Nat.shiftRight_eq_div_pow]
  rw [hm, hm, hm, hs16, hs8]
  refine Prod.ext ?_ (Prod.ext ?_ ?_) <;> simp only <;> omega

set_option maxRecDepth 4000 in
/-- Error of the 1-bit channel reconstruction is within 128. -/
lemma chanErr7 : ∀ v < 256, (((v >>> 7) * 255 : Int) - v).natAbs ≤ 128 := by decide

set_option maxRecDepth 4000 in
/-- Error of the 2-bit channel reconstruction is within 64. -/
lemma chanErr6 : ∀ v < 256, (((v >>> 6) * 85 : Int) - v).natAbs ≤ 64 := by decide

set_option maxRecDepth 4000 in
/-- Error of the 3-bit channel reconstruction is within 32. -/
lemma chanErr5 : ∀ v < 256, (((v >>> 5) * 36 : Int) - v).natAbs ≤ 32 := by decide

set_option maxRecDepth 4000 in
/-- Error of the 4-bit channel reconstruction is within 16. -/
lemma chanErr4 : ∀ v < 256, (((v >>> 4) * 17 : Int) - v).natAbs ≤ 16 := by decide

/-- C6: for 8-bit channels and every supported depth, packing followed
by unpacking stays within the per-channel quantization step size, and
depth 24 reproduces the channels exactly. -/
theorem colorDepthRoundtrip (d r g b : Nat)
    (hd : d = 4 ∨ d = 8 ∨ d = 12 ∨ d = 24) (hr : r < 256) (hg : g < 256) (hb : b < 256) :
    (((unpackColor d (packColor d r g b)).1 : Int) - r).natAbs ≤ (channelSteps d).1 ∧
    (((unpackColor d (packColor d r g b)).2.1 : Int) - g).natAbs ≤ (channelSteps d).2.1 ∧
    (((unpackColor d (packColor d r g b)).2.2 : Int) - b).natAbs ≤ (channelSteps d).2.2 ∧
    (d = 24 → unpackColor d (packColor d r g b) = (r, g, b)) := by
  rcases hd with hd | hd | hd | hd <;> subst hd
  · rw [unpack_pack_4 r g b hr hg hb]
    refine ⟨?_, ?_, ?_, by intro h; cases h⟩
    · have := chanErr7 r hr
      simpa [channelSteps] using this
    · have := chanErr6 g hg
      simpa [channelSteps] using this
    · have := chanErr7 b hb
      simpa [channelSteps] using this
  · rw [unpack_pack_8 r g b hr hg hb]
    refine ⟨?_, ?_, ?_, by intro h; cases h⟩
    · have := chanErr5 r hr
      simpa [channelSteps] using this
    · have := chanErr5 g hg
      simpa [channelSteps] using this
    · have := chanErr6 b hb
      simpa [channelSteps] using this
  · rw [unpack_pack_12 r g b hr hg hb]
    refine ⟨?_, ?_, ?_, by intro h; cases h⟩
    · have := chanErr4 r hr
      simpa [channelSteps] using this
    · have := chanErr4 g hg
      simpa [channelSteps] using this
    · have := chanErr4 b hb
      simpa [channelSteps] using this
  · rw [unpack_pack_24 r g b hr hg hb]
    refine ⟨?_, ?_, ?_, fun _ => rfl⟩ <;> simp [channelSteps]

/-- Witness for C6 at depth 4 with channels 200, 100, 50. -/
theorem colorDepthRoundtrip_witness :
    (4 = 4 ∨ 4 = 8 ∨ 4 = 12 ∨ 4 = 24) ∧
    ((((unpackColor 4 (packColor 4 200 100 50)).1 : Int) - 200).natAbs ≤ (channelSteps 4).1 ∧
     (((unpackColor 4 (packColor 4 200 100 50)).2.1 : Int) - 100).natAbs ≤ (channelSteps 4).2.1 ∧
     (((unpackColor 4 (packColor 4 200 100 50)).2.2 : Int) - 50).natAbs ≤ (channelSteps 4).2.2 ∧
     (4 = 24 → unpackColor 4 (packColor 4 200 100 50) = (200, 100, 50))) :=
  ⟨Or.inl rfl,
   colorDepthRoundtrip 4 200 100 50 (Or.inl rfl) (by decide) (by decide) (by decide)⟩

/-- Unfolding one feeding step. -/
lemma feedFrom_cons (st : EncState) (t : Nat) (fd : Frame) (rest : List Frame) :
    feedFrom st t (fd :: rest) = feedFrom (addFrame st fd t) (t + 1) rest := rfl

/-- Feeding a concatenation feeds the two parts in order. -/
lemma feedFrom_append (l1 l2 : List Frame) : ∀ (st : EncState) (t : Nat),
    feedFrom st t (l1 ++ l2) = feedFrom (feedFrom st t l1) (t + l1.length) l2 := by
  induction l1 with
  | nil =>
    intro st t
    simp [feedFrom]
  | cons fd rest ih =>
    intro st t
    rw [List.cons_append, feedFrom_cons, feedFrom_cons, ih]
    have h : t + 1 + rest.length = t + (fd :: rest).length := by
      rw [List.length_cons]
      omega
    rw [h]

/-- The delta computed by the encoder is never a keyframe record. -/
lemma isFull_computeDelta (lf fd : Frame) (t : Nat) :
    Record.isFull (computeDelta lf fd t) = false := rfl

/-- The first frame of a session is stored as a keyframe. -/
lemma addFrame_keyframe_none (st : EncState) (fd : Frame) (t : Nat)
    (henc : st.isEncoding = true) (hnone : st.lastFrameData = none) :
    addFrame st fd t = { st with frames := st.frames ++ [Record.full t fd],
                                 framesSinceKeyframe := 0, lastFrameData := some fd } := by
  unfold addFrame
  rw [henc]
  simp only [if_true]
  rw [hnone]

/-- A frame arriving when the interval counter is saturated is stored
as a keyframe. -/
lemma addFrame_keyframe_counter (st : EncState) (fd lf : Frame) (t : Nat)
    (henc : st.isEncoding = true) (hlast : st.lastFrameData = some lf)
    (hge : st.framesSinceKeyframe ≥ st.keyframeInterval) :
    addFrame st fd t = { st with frames := st.frames ++ [Record.full t fd],
                                 framesSinceKeyframe := 0, lastFrameData := some fd } := by
  unfold addFrame
  rw [henc]
  simp only [if_true]
  rw [hlast]
  dsimp only
  rw [if_pos (Or.inl hge)]

/-- A frame of unchanged dimensions arriving below the interval is
stored as a delta against the previous frame. -/
lemma addFrame_delta (st : EncState) (fd lf : Frame) (t : Nat)
    (henc : st.isEncoding = true) (hlast : st.lastFrameData = some lf)
    (hlt : st.framesSinceKeyframe < st.keyframeInterval)
    (hwd : lf.width = fd.width) (hht : lf.height = fd.height) :
    addFrame st fd t = { st with frames := st.frames ++ [computeDelta lf fd t],
                                 framesSinceKeyframe := st.framesSinceKeyframe + 1,
                                 lastFrameData := some fd } := by
  unfold addFrame
  rw [henc]
  simp only [if_true]
  rw [hlast]
  dsimp only
  rw [if_neg (by push_neg; exact ⟨by omega, hwd, hht⟩)]

/-- While the interval counter stays below the threshold and the
dimensions never change, every fed frame of an arbitrary sequence is
stored as a delta; the counter advances by one per frame and the
retained previous frame keeps the common dimensions. -/
lemma feedFrom_delta_phase (fds : List Frame) :
    ∀ (st : EncState) (t w h : Nat) (lf : Frame),
    st.isEncoding = true →
    st.lastFrameData = some lf → lf.width = w → lf.height = h →
    st.framesSinceKeyframe + fds.length ≤ st.keyframeInterval →
    (∀ f ∈ fds, f.width = w ∧ f.height = h) →
    (feedFrom st t fds).frames.map Record.isFull =
        st.frames.map Record.isFull ++ List.replicate fds.length false ∧
    (feedFrom st t fds).isEncoding = true ∧
    (feedFrom st t fds).framesSinceKeyframe = st.framesSinceKeyframe + fds.length ∧
    (feedFrom st t fds).keyframeInterval = st.keyframeInterval ∧
    ∃ lf', (feedFrom st t fds).lastFrameData = some lf' ∧ lf'.width = w ∧ lf'.height = h := by
  induction fds with
  | nil =>
    intro st t w h lf henc hlast hwd hht hbound hall
    exact ⟨by simp [feedFrom], henc, by simp [feedFrom], rfl, lf, hlast, hwd, hht⟩
  | cons fd rest ih =>
    intro st t w h lf henc hlast hwd hht hbound hall
    have hfd := hall fd (List.mem_cons_self ..)
    have hlen : (fd :: rest).length = rest.length + 1 := List.length_cons ..
    rw [feedFrom_cons, addFrame_delta st fd lf t henc hlast (by omega)
      (by rw [hwd, hfd.1]) (by rw [hht, hfd.2])]
    obtain ⟨h1, h2, h3, h4, lf', h5, h6, h7⟩ :=
      ih { st with frames := st.frames ++ [computeDelta lf fd t],
                   framesSinceKeyframe := st.framesSinceKeyframe + 1,
                   lastFrameData := some fd }
        (t + 1) w h fd henc rfl hfd.1 hfd.2 (by dsimp only; omega)
        (fun f hf => hall f (List.mem_cons_of_mem _ hf))
    refine ⟨?_, h2, ?_, ?_, lf', h5, h6, h7⟩
    · rw [h1]
      dsimp only
      rw [List.map_append, hlen, List.replicate_succ']
      simp [isFull_computeDelta, List.append_assoc]
      rw [← List.replicate_succ, ← List.replicate_succ']
    · rw [h3]
      dsimp only
      omega
    · rw [h4]

/-- C2 amended: feeding any sequence of `keyframeInterval + 2` frames
of identical dimensions (content may vary freely) produces a keyframe
at position 0, deltas at positions 1 through `keyframeInterval`, and
the next keyframe only at position `keyframeInterval + 1`; and a frame
whose width or height differs from the previous one is always encoded
as an immediate keyframe. -/
theorem keyframeCadence :
    (∀ (K t0 w h : Nat) (fds : List Frame),
      fds.length = K + 2 →
      (∀ f ∈ fds, f.width = w ∧ f.height = h) →
      (feedFrom (startedState K) t0 fds).frames.map Record.isFull =
        true :: (List.replicate K false ++ [true])) ∧
    (∀ (st : EncState) (fd lf : Frame) (time : Nat),
      st.isEncoding = true → st.lastFrameData = some lf →
      lf.width ≠ fd.width ∨ lf.height ≠ fd.height →
      (addFrame st fd time).frames = st.frames ++ [Record.full time fd]) := by
  constructor
  · intro K t0 w h fds hlen hall
    rcases fds with _ | ⟨f0, rest⟩
    · simp at hlen
    rcases hrev : rest.reverse with _ | ⟨flast, midr⟩
    · rw [List.reverse_eq_nil_iff] at hrev
      subst hrev
      simp at hlen
    have hrest : rest = midr.reverse ++ [flast] := by
      rw [← List.reverse_reverse rest, hrev, List.reverse_cons]
    have hmidlen : midr.reverse.length = K := by
      have h1 : rest.length = K + 1 := by
        rw [List.length_cons] at hlen
        omega
      rw [hrest, List.length_append, List.length_singleton] at h1
      omega
    have hf0 := hall f0 (List.mem_cons_self ..)
    have hmem : ∀ f ∈ midr.reverse, f.width = w ∧ f.height = h := by
      intro f hf
      refine hall f (List.mem_cons_of_mem _ ?_)
      rw [hrest]
      exact List.mem_append_left _ hf
    have hflast : flast.width = w ∧ flast.height = h := by
      refine hall flast (List.mem_cons_of_mem _ ?_)
      rw [hrest]
      exact List.mem_append_right _ (List.mem_singleton_self _)
    rw [feedFrom_cons, hrest,
      addFrame_keyframe_none (startedState K) f0 t0 rfl rfl, feedFrom_append]
    obtain ⟨h1, h2, h3, h4, lf', h5, h6, h7⟩ :=
      feedFrom_delta_phase midr.reverse
        { startedState K with frames := (startedState K).frames ++ [Record.full t0 f0],
                              framesSinceKeyframe := 0, lastFrameData := some f0 }
        (t0 + 1) w h f0 rfl rfl hf0.1 hf0.2 (by dsimp only [startedState]; omega) hmem
    rw [show ∀ (st : EncState) (tx : Nat), feedFrom st tx [flast] = addFrame st flast tx
      from fun st tx => rfl]
    rw [addFrame_keyframe_counter _ flast lf' _ h2 h5
      (by rw [h3, h4]; dsimp only [startedState]; omega)]
    dsimp only
    rw [List.map_append, h1, hmidlen]
    dsimp only [startedState]
    simp
    exact ⟨rfl, rfl⟩

  · intro st fd lf time h1 h2 h3
    unfold addFrame
    rw [h1]
    simp only [if_true]
    rw [h2]
    dsimp only
    rw [if_pos (Or.inr h3)]

/-- Witness for C2 amended: interval 2 with an alternating sequence of
two content-different 1x1 frames gives the pattern keyframe, delta,
delta, keyframe; and an encoder holding a 1x1 frame emits a keyframe
for an incoming 2x1 frame. -/
theorem keyframeCadence_witness :
    ([tinyFrame, tinyFrameB, tinyFrame, tinyFrameB].length = 2 + 2) ∧
    (∀ f ∈ [tinyFrame, tinyFrameB, tinyFrame, tinyFrameB], f.width = 1 ∧ f.height = 1) ∧
    (feedFrom (startedState 2) 0 [tinyFrame, tinyFrameB, tinyFrame, tinyFrameB]).frames.map
        Record.isFull = true :: (List.replicate 2 false ++ [true]) ∧
    ((⟨[], true, some tinyFrame, 0, 30⟩ : EncState).isEncoding = true ∧
     (⟨[], true, some tinyFrame, 0, 30⟩ : EncState).lastFrameData = some tinyFrame ∧
     (tinyFrame.width ≠ tinyFrame2.width ∨ tinyFrame.height ≠ tinyFrame2.height) ∧
     (addFrame ⟨[], true, some tinyFrame, 0, 30⟩ tinyFrame2 7).frames =
       ([] : List Record) ++ [Record.full 7 tinyFrame2]) := by
  refine ⟨rfl, by decide,
    keyframeCadence.1 2 0 1 1 [tinyFrame, tinyFrameB, tinyFrame, tinyFrameB] rfl (by decide),
    rfl, rfl, Or.inl (by decide), ?_⟩
  exact keyframeCadence.2 ⟨[], true, some tinyFrame, 0, 30⟩ tinyFrame2 tinyFrame 7 rfl rfl
    (Or.inl (by decide))

set_option maxRecDepth 8000 in
/-- Counterexample for C2 as stated: with the default interval 30 and
31 identical 1x1 frames, the record at position 30 is a delta, not the
claimed keyframe (the next keyframe appears at position 31). -/
theorem keyframeIntervalClaim_cex :
    Record.isFull ((feedN (startedState 30) tinyFrame 31).frames.getD 30
      (Record.full 0 defaultFrame)) = false := by decide

/-- C3 amended: a load fails exactly when the text starts with the
legacy ASCV marker, fails to parse, or lacks a frames array; the ASCV
and parse failures leave the decoder state untouched, but a schema
failure retains the parsed document in `data` (while leaving
`reconstructedFrame` and `lastProcessedIndex` unchanged). -/
theorem loadFailureBehavior (raw : List Char) (parsed : Option Json) (st : VDState) :
    ((load raw parsed st).1 ≠ LoadOutcome.ok ↔
      (startsWithASCV raw = true ∨ parsed = none ∨
        (∀ j, parsed = some j → hasFramesArray j = false))) ∧
    (startsWithASCV raw = true ∨ parsed = none →
      (load raw parsed st).2 = st) ∧
    (∀ j, startsWithASCV raw = false → parsed = some j →
      hasFramesArray j = false →
      (load raw parsed st).2 = { st with data := some j } ∧
        (load raw parsed st).2.reconstructedFrame = st.reconstructedFrame ∧
        (load raw parsed st).2.lastProcessedIndex = st.lastProcessedIndex) := by
  unfold load
  by_cases ha : startsWithASCV raw
  · rw [if_pos ha]
    refine ⟨by simp [ha], fun _ => rfl, ?_⟩
    intro j hfalse
    rw [ha] at hfalse
    exact Bool.noConfusion hfalse
  · rw [if_neg ha]
    rcases parsed with _ | j
    · refine ⟨?_, fun _ => rfl, ?_⟩
      · constructor
        · intro _
          exact Or.inr (Or.inl rfl)
        · intro _ h
          exact LoadOutcome.noConfusion h
      · intro j _ hj
        cases hj
    · dsimp only
      by_cases hf : hasFramesArray j = false
      · rw [if_pos hf]
        refine ⟨?_, ?_, ?_⟩
        · constructor
          · intro _
            refine Or.inr (Or.inr ?_)
            intro j' hj'
            cases hj'
            exact hf
          · intro _ h
            exact LoadOutcome.noConfusion h
        · rintro (h | h)
          · exact absurd h ha
          · cases h
        · intro j' _ hj' _
          cases hj'
          exact ⟨rfl, rfl, rfl⟩
      · rw [if_neg hf]
        refine ⟨?_, ?_, ?_⟩
        · constructor
          · intro h
            exact absurd rfl h
          · rintro (h | h | h)
            · exact absurd h ha
            · cases h
            · exact absurd (h j rfl) hf
        · rintro (h | h)
          · exact absurd h ha
          · cases h
        · intro j' _ hj' hfj
          cases hj'
          exact absurd hfj hf

/-- Counterexample for C3 as stated: loading the two-character document
consisting of an empty object (which parses, but has no frames array)
into a fresh decoder fails with the schema error, yet the `data` field
now holds the parsed object instead of its previous value. -/
theorem loadAtomicityClaim_cex :
    (load ['\x7b', '\x7d'] (some (Json.obj [])) ⟨none, none, -1⟩).1 =
      LoadOutcome.err "Invalid schema." ∧
    (load ['\x7b', '\x7d'] (some (Json.obj [])) ⟨none, none, -1⟩).2.data =
      some (Json.obj []) ∧
    some (Json.obj []) ≠ (⟨none, none, -1⟩ : VDState).data := by
  refine ⟨rfl, rfl, by simp⟩

/-- Witness for C3 amended: a legacy-marker document fails and leaves a
fresh decoder state untouched. -/
theorem loadFailureBehavior_witness :
    (startsWithASCV ['A', 'S', 'C', 'V'] = true ∨ (none : Option Json) = none) ∧
    (load ['A', 'S', 'C', 'V'] none ⟨none, none, -1⟩).2 = ⟨none, none, -1⟩ :=
  ⟨Or.inl (by decide),
   (loadFailureBehavior ['A', 'S', 'C', 'V'] none ⟨none, none, -1⟩).2.1 (Or.inl (by decide))⟩

/-- The clamped floored luminance is at most 255. -/
lemma adjLum_le_255 (inverted : Bool) (p : RGB) : adjLum inverted p ≤ 255 := by
  have key : ∀ q : ℚ, (Int.floor (max 0 (min 255 q))).toNat ≤ 255 := by
    intro q
    have h1 : max (0 : ℚ) (min 255 q) ≤ 255 := max_le (by norm_num) (min_le_left _ _)
    have h2 : Int.floor (max (0 : ℚ) (min 255 q)) ≤ (255 : Int) := by
      calc Int.floor (max (0 : ℚ) (min 255 q)) ≤ Int.floor ((255 : ℚ)) := Int.floor_le_floor h1
        _ = 255 := by norm_num
    omega
  exact key _

/-- When every pixel has adjusted luminance `v`, the histogram is
concentrated at bin `v`. -/
lemma histogram_const (pixels : List RGB) (inverted : Bool) (v : Nat)
    (hall : ∀ p ∈ pixels, adjLum inverted p = v) (i : Nat) :
    histogram inverted pixels i = if i = v then pixels.length else 0 := by
  unfold histogram
  by_cases hiv : i = v
  · subst hiv
    rw [if_pos rfl]
    have h : pixels.filter (fun p => adjLum inverted p = i) = pixels := by
      rw [List.filter_eq_self]
      intro a ha
      simp [hall a ha]
    rw [h]
  · rw [if_neg hiv]
    have h : pixels.filter (fun p => adjLum inverted p = i) = [] := by
      rw [List.filter_eq_nil_iff]
      intro a ha
      simp [hall a ha]
      exact fun hc => hiv hc.symm
    rw [h]
    rfl

/-- Summing an indicator-like map over a duplicate-free list that
contains the distinguished element yields the single value. -/
lemma sum_map_single (l : List Nat) (v n : Nat) (hl : l.Nodup) (hv : v ∈ l) :
    (l.map (fun i => if i = v then n else 0)).sum = n := by
  induction l with
  | nil => cases hv
  | cons a t ih =>
    rw [List.map_cons, List.sum_cons]
    rcases List.nodup_cons.mp hl with ⟨hat, ht⟩
    by_cases hav : a = v
    · subst hav
      rw [if_pos rfl]
      have hz : (t.map (fun i => if i = a then n else 0)).sum = 0 := by
        apply List.sum_eq_zero
        intro x hx
        rcases List.mem_map.mp hx with ⟨i, hi, hxi⟩
        have hia : i ≠ a := fun he => hat (he ▸ hi)
        rw [if_neg hia] at hxi
        exact hxi.symm
      rw [hz]
      omega
    · rw [if_neg hav]
      have hvt : v ∈ t := by
        rcases List.mem_cons.mp hv with h1 | h1
        · exact absurd h1.symm hav
        · exact h1
      rw [ih ht hvt]
      omega

/-- A find over a list where the predicate holds exactly at `v` returns
`v` whenever `v` is present. -/
lemma find?_eq_of_unique (l : List Nat) (p : Nat → Bool) (v : Nat)
    (h : ∀ i ∈ l, p i = true ↔ i = v) (hv : v ∈ l) : l.find? p = some v := by
  induction l with
  | nil => cases hv
  | cons a t ih =>
    by_cases ha : p a
    · rw [List.find?_cons_of_pos _ ha]
      rw [(h a (List.mem_cons_self a t)).mp ha]
    · rw [List.find?_cons_of_neg _ ha]
      apply ih
      · intro i hi
        exact h i (List.mem_cons_of_mem a hi)
      · rcases List.mem_cons.mp hv with h1 | h1
        · exact absurd ((h a (List.mem_cons_self a t)).mpr h1.symm) ha
        · exact h1

/-- C4 amended: on a zero-variance image under auto-level, the
occurring adjusted-luminance value is remapped to 0 by the normalized
CDF (the division-by-zero guard substitutes an effective range of 1,
and the CDF-min subtraction cancels the full count), so the remapping
is not the identity unless the occurring value is 0. -/
theorem autoLevelZeroVariance (pixels : List RGB) (inverted : Bool) (v : Nat)
    (hne : pixels ≠ []) (hall : ∀ p ∈ pixels, adjLum inverted p = v) :
    normalizedCdf pixels.length (histogram inverted pixels) v = 0 := by
  have hlen : 0 < pixels.length := List.length_pos.mpr hne
  obtain ⟨p0, hp0⟩ := List.exists_mem_of_ne_nil pixels hne
  have hv255 : v ≤ 255 := hall p0 hp0 ▸ adjLum_le_255 inverted p0
  have hcdfv : cdfAt (histogram inverted pixels) v = pixels.length := by
    unfold cdfAt
    have hmap : (List.range (v + 1)).map (histogram inverted pixels) =
        (List.range (v + 1)).map (fun i => if i = v then pixels.length else 0) :=
      List.map_congr_left (fun i _ => histogram_const pixels inverted v hall i)
    rw [hmap]
    exact sum_map_single _ v pixels.length (List.nodup_range _)
      (List.mem_range.mpr (by omega))
  have hmin : cdfMinOf (histogram inverted pixels) = pixels.length := by
    unfold cdfMinOf
    have hfind : (List.range 256).find? (fun i => decide (0 < histogram inverted pixels i)) =
        some v := by
      apply find?_eq_of_unique
      · intro i _
        rw [histogram_const pixels inverted v hall i]
        by_cases hiv : i = v
        · subst hiv
          simp [hlen]
        · simp [hiv]
      · exact List.mem_range.mpr (by omega)
    rw [hfind]
    exact hcdfv
  unfold normalizedCdf
  rw [hmin, hcdfv]
  simp

/-- Counterexample for C4 as stated: a single-pixel image whose only
adjusted luminance is 5 remaps 5 to 0 under auto-level, not to itself. -/
theorem autoLevelIdentityClaim_cex :
    normalizedCdf 1 (histogram false [⟨5, 5, 5⟩]) 5 = 0 ∧ (0 : ℚ) ≠ 5 := by
  constructor
  · exact of_decide_eq_true (by with_unfolding_all rfl)
  · norm_num

/-- Witness for C4 amended at the single-pixel image of luminance 5. -/
theorem autoLevelZeroVariance_witness :
    ([(⟨5, 5, 5⟩ : RGB)] ≠ ([] : List RGB)) ∧
    (∀ p ∈ [(⟨5, 5, 5⟩ : RGB)], adjLum false p = 5) ∧
    normalizedCdf (List.length [(⟨5, 5, 5⟩ : RGB)]) (histogram false [⟨5, 5, 5⟩]) 5 = 0 :=
  ⟨by simp, of_decide_eq_true (by with_unfolding_all rfl),
   autoLevelZeroVariance [⟨5, 5, 5⟩] false 5 (by simp)
     (of_decide_eq_true (by with_unfolding_all rfl))⟩

/-- A flat map whose chunks all have length `L` has total length the
number of chunks times `L`. -/
lemma length_flatMap_const {α β : Type} (l : List α) (f : α → List β) (L : Nat)
    (h : ∀ a ∈ l, (f a).length = L) : (l.flatMap f).length = l.length * L := by
  induction l with
  | nil => simp
  | cons a t ih =>
    rw [List.flatMap_cons, List.length_append, h a (by simp),
      ih (fun x hx => h x (by simp [hx]))]
    rw [List.length_cons]
    ring

/-- The clamp of the source keeps indices below the palette size. -/
lemma clampIdx_lt (v : Int) (len : Nat) (hlen : 1 ≤ len) : clampIdx v len < len := by
  unfold clampIdx
  have h1 : min v ((len : Int) - 1) ≤ (len : Int) - 1 := min_le_right _ _
  have h2 : max 0 (min v ((len : Int) - 1)) ≤ (len : Int) - 1 :=
    max_le (by omega) h1
  have h3 := Int.toNat_le_toNat h2
  omega

/-- Every cell index lies below the length of the frame charset. -/
lemma processCell_idx_lt (o : Options) (img : Image) (ncdf : Nat → ℚ) (x y : Nat)
    (hcs : 1 ≤ o.charset.length) :
    (processCell o img ncdf x y).idx < (finalCharset o).length := by
  unfold processCell finalCharset
  by_cases hb : o.mode = Mode.block
  · rw [if_pos hb, if_pos hb]
    dsimp only
    split_ifs <;> simp [blockCharset]
  · rw [if_neg hb, if_neg hb]
    by_cases hbin : o.mode = Mode.binary
    · rw [if_pos hbin, if_pos hbin]
      dsimp only
      split_ifs <;> simp
    · rw [if_neg hbin, if_neg hbin]
      by_cases hdit : o.mode = Mode.dither
      · rw [if_pos hdit]
        exact clampIdx_lt _ _ hcs
      · rw [if_neg hdit]
        exact clampIdx_lt _ _ hcs

/-- The number of visited rows equals the output height. -/
lemma procRowYs_length (o : Options) (img : Image) :
    (procRowYs o img).length = procOutHeight o img := by
  unfold procRowYs procOutHeight
  split <;> simp

/-- The number of cells equals output height times width. -/
lemma procCells_length (o : Options) (img : Image) :
    (procCells o img).length = procOutHeight o img * img.width := by
  unfold procCells
  rw [length_flatMap_const (procRowYs o img) (procRowCells o img) img.width
    (fun y _ => by simp [procRowCells])]
  rw [procRowYs_length]

/-- C8: every frame produced by `process` has exactly width times
height palette indices, a colors array of the same length whenever it
is present, every palette index below the length of the stored charset,
and in block mode an output height of the ceiling of half the input
height.  The configured charset is assumed non-empty (the palette of
the source configuration always has at least one symbol). -/
theorem frameShapeInvariant (o : Options) (img : Image) (hcs : 1 ≤ o.charset.length) :
    (processFrame o img).charIndices.length =
      (processFrame o img).width * (processFrame o img).height ∧
    (∀ cl, (processFrame o img).colors = some cl →
      cl.length = (processFrame o img).width * (processFrame o img).height) ∧
    (∀ i ∈ (processFrame o img).charIndices, i < (processFrame o img).charset.length) ∧
    (o.mode = Mode.block → (processFrame o img).height = (img.height + 1) / 2) := by
  have hw : (processFrame o img).width = img.width := rfl
  have hh : (processFrame o img).height = procOutHeight o img := rfl
  have hci : (processFrame o img).charIndices = (procCells o img).map Cell.idx := rfl
  have hcsin : (processFrame o img).charset = finalCharset o := rfl
  refine ⟨?_, ?_, ?_, ?_⟩
  · rw [hci, hw, hh, List.length_map, procCells_length]
    ring
  · intro cl hcl
    have hco : (processFrame o img).colors =
        (if o.colorMode = CMode.color then some ((procCells o img).map Cell.colorPacked)
         else none) := rfl
    rw [hco] at hcl
    by_cases hc : o.colorMode = CMode.color
    · rw [if_pos hc] at hcl
      cases hcl
      rw [hw, hh, List.length_map, procCells_length]
      ring
    · rw [if_neg hc] at hcl
      cases hcl
  · intro i hi
    rw [hci] at hi
    rcases List.mem_map.mp hi with ⟨c, hc, hic⟩
    rcases List.mem_flatMap.mp hc with ⟨y, _, hcy⟩
    rcases List.mem_map.mp hcy with ⟨x, _, hcx⟩
    rw [hcsin, ← hic, ← hcx]
    exact processCell_idx_lt o img (procNcdf o img) x y hcs
  · intro hb
    rw [hh]
    unfold procOutHeight
    rw [if_pos hb]

/-- Witness for C8: a 1x2 grayscale raster with a one-symbol charset. -/
theorem frameShapeInvariant_witness :
    (1 ≤ (⟨['a'], Mode.grayscale, CMode.color, 8, 128, '1', '0', false, false⟩ :
      Options).charset.length) ∧
    (processFrame ⟨['a'], Mode.grayscale, CMode.color, 8, 128, '1', '0', false, false⟩
        ⟨1, 2, fun _ => ⟨10, 20, 30⟩⟩).charIndices.length =
      (processFrame ⟨['a'], Mode.grayscale, CMode.color, 8, 128, '1', '0', false, false⟩
        ⟨1, 2, fun _ => ⟨10, 20, 30⟩⟩).width *
      (processFrame ⟨['a'], Mode.grayscale, CMode.color, 8, 128, '1', '0', false, false⟩
        ⟨1, 2, fun _ => ⟨10, 20, 30⟩⟩).height :=
  ⟨by decide,
   (frameShapeInvariant ⟨['a'], Mode.grayscale, CMode.color, 8, 128, '1', '0', false, false⟩
     ⟨1, 2, fun _ => ⟨10, 20, 30⟩⟩ (by decide)).1⟩

/-- C10: in block mode with color enabled, the packed color of every
cell is computed solely from the adjusted channels of the top pixel of
the vertical pair; and on the last row of an odd-height raster the
clamped bottom pixel coincides with the top pixel, so the two
luminance thresholds agree and the cell index is 0 or 3 (both halves
off or both on). -/
theorem blockColorFromTopPixel (o : Options) (img : Image) (ncdf : Nat → ℚ) (x y : Nat)
    (hb : o.mode = Mode.block) (hc : o.colorMode = CMode.color) :
    (processCell o img ncdf x y).colorPacked =
      (packColor o.colorDepth (img.pix (y * img.width + x)).r
        (img.pix (y * img.width + x)).g (img.pix (y * img.width + x)).b : Int) ∧
    (img.height % 2 = 1 → y = img.height - 1 →
      (processCell o img ncdf x y).idx = 0 ∨ (processCell o img ncdf x y).idx = 3) := by
  unfold processCell
  rw [if_pos hb]
  dsimp only
  constructor
  · rw [if_pos hc]
  · intro hodd hy
    have hmin : min (y + 1) (img.height - 1) = y := by omega
    rw [hmin]
    split_ifs <;> simp

/-- Witness for C10: a single-cell block-mode raster of odd height. -/
theorem blockColorFromTopPixel_witness :
    ((⟨['a'], Mode.block, CMode.color, 8, 128, '1', '0', false, false⟩ : Options).mode =
        Mode.block ∧
      (⟨['a'], Mode.block, CMode.color, 8, 128, '1', '0', false, false⟩ : Options).colorMode =
        CMode.color) ∧
    (processCell ⟨['a'], Mode.block, CMode.color, 8, 128, '1', '0', false, false⟩
        ⟨1, 1, fun _ => ⟨200, 10, 30⟩⟩
        (procNcdf ⟨['a'], Mode.block, CMode.color, 8, 128, '1', '0', false, false⟩
          ⟨1, 1, fun _ => ⟨200, 10, 30⟩⟩) 0 0).colorPacked =
      (packColor 8 200 10 30 : Int) ∧
    ((processCell ⟨['a'], Mode.block, CMode.color, 8, 128, '1', '0', false, false⟩
        ⟨1, 1, fun _ => ⟨200, 10, 30⟩⟩
        (procNcdf ⟨['a'], Mode.block, CMode.color, 8, 128, '1', '0', false, false⟩
          ⟨1, 1, fun _ => ⟨200, 10, 30⟩⟩) 0 0).idx = 0 ∨
     (processCell ⟨['a'], Mode.block, CMode.color, 8, 128, '1', '0', false, false⟩
        ⟨1, 1, fun _ => ⟨200, 10, 30⟩⟩
        (procNcdf ⟨['a'], Mode.block, CMode.color, 8, 128, '1', '0', false, false⟩
          ⟨1, 1, fun _ => ⟨200, 10, 30⟩⟩) 0 0).idx = 3) :=
  ⟨⟨rfl, rfl⟩,
   (blockColorFromTopPixel ⟨['a'], Mode.block, CMode.color, 8, 128, '1', '0', false, false⟩
     ⟨1, 1, fun _ => ⟨200, 10, 30⟩⟩ _ 0 0 rfl rfl).1,
   (blockColorFromTopPixel ⟨['a'], Mode.block, CMode.color, 8, 128, '1', '0', false, false⟩
     ⟨1, 1, fun _ => ⟨200, 10, 30⟩⟩ _ 0 0 rfl rfl).2 rfl rfl⟩

/-- Unfolding one patch step. -/
lemma applyPairs_cons (l : List α) (p : Nat × α) (t : List (Nat × α)) :
    applyPairs l (p :: t) = applyPairs (l.set p.1 p.2) t := rfl

/-- Patching preserves the length. -/
lemma applyPairs_length (l : List α) (ps : List (Nat × α)) :
    (applyPairs l ps).length = l.length := by
  induction ps generalizing l with
  | nil => rfl
  | cons p t ih =>
    rw [applyPairs_cons, ih]
    exact List.length_set ..

/-- A position no pair addresses is unchanged by the patch. -/
lemma applyPairs_getElem?_of_forall_ne (l : List α) (ps : List (Nat × α)) (j : Nat)
    (h : ∀ p ∈ ps, p.1 ≠ j) : (applyPairs l ps)[j]? = l[j]? := by
  induction ps generalizing l with
  | nil => rfl
  | cons p t ih =>
    rw [applyPairs_cons, ih _ (fun q hq => h q (List.mem_cons_of_mem _ hq))]
    exact List.getElem?_set_ne (h p (List.mem_cons_self ..))

/-- A position addressed by pairs that all carry the same value ends up
holding that value. -/
lemma applyPairs_getElem?_of_mem (l : List α) (ps : List (Nat × α)) (j : Nat) (v : α)
    (hj : j < l.length) (hmem : (j, v) ∈ ps) (huniq : ∀ w, (j, w) ∈ ps → w = v) :
    (applyPairs l ps)[j]? = some v := by
  induction ps generalizing l with
  | nil => cases hmem
  | cons p t ih =>
    rcases p with ⟨pi, pv⟩
    rw [applyPairs_cons]
    by_cases hpj : pi = j
    · subst hpj
      have hpv : pv = v := huniq pv (List.mem_cons_self ..)
      subst hpv
      by_cases hvt : ∃ u, (pi, u) ∈ t
      · rcases hvt with ⟨u, hu⟩
        have hu2 : u = pv := huniq u (List.mem_cons_of_mem _ hu)
        subst hu2
        exact ih _ (by rw [List.length_set]; exact hj) hu
          (fun w hw => huniq w (List.mem_cons_of_mem _ hw))
      · push_neg at hvt
        rw [applyPairs_getElem?_of_forall_ne _ t pi
          (fun q hq hq1 => hvt q.2 (by rw [← hq1]; exact hq))]
        exact List.getElem?_set_self hj
    · have hmem2 : (j, v) ∈ t := by
        rcases List.mem_cons.mp hmem with h1 | h1
        · cases h1
          exact absurd rfl hpj
        · exact h1
      exact ih _ (by rw [List.length_set]; exact hj) hmem2
        (fun w hw => huniq w (List.mem_cons_of_mem _ hw))

/-- Membership in the element-wise diff: exactly the in-range positions
where the two lists disagree, paired with the current value. -/
lemma diffPairs_mem [DecidableEq α] (cur last : List α) (j : Nat) (v : α) :
    (j, v) ∈ diffPairs cur last ↔
      j < cur.length ∧ cur[j]? = some v ∧ last[j]? ≠ some v := by
  unfold diffPairs
  rw [List.mem_filterMap]
  constructor
  · rintro ⟨i, hi, hf⟩
    rcases hcur : cur[i]? with _ | w
    · rw [hcur] at hf
      cases hf
    · rw [hcur] at hf
      dsimp only at hf
      by_cases hne : last[i]? ≠ some w
      · rw [if_pos hne] at hf
        injection hf with hf2
        cases hf2
        exact ⟨List.mem_range.mp hi, hcur, hne⟩
      · rw [if_neg hne] at hf
        cases hf
  · rintro ⟨hj, hcur, hne⟩
    refine ⟨j, List.mem_range.mpr hj, ?_⟩
    rw [hcur]
    dsimp only
    rw [if_pos hne]

/-- The diff collected from `last` to `cur` restores `cur` when patched
onto `last`. -/
lemma applyPairs_diffPairs [DecidableEq α] (cur last : List α)
    (h : last.length = cur.length) :
    applyPairs last (diffPairs cur last) = cur := by
  apply List.ext_getElem?
  intro j
  by_cases hj : j < cur.length
  · have hv : cur[j]? = some (cur.get ⟨j, hj⟩) := List.getElem?_eq_getElem hj
    by_cases heq : last[j]? = some (cur.get ⟨j, hj⟩)
    · rw [applyPairs_getElem?_of_forall_ne _ _ j (fun p hp hpj => ?_), heq, hv]
      rcases p with ⟨pi, pv⟩
      have hpj2 : pi = j := hpj
      subst hpj2
      rcases (diffPairs_mem cur last pi pv).mp hp with ⟨_, hc2, hn2⟩
      rw [hv] at hc2
      injection hc2 with hc3
      rw [hc3] at heq
      exact hn2 heq
    · rw [applyPairs_getElem?_of_mem last _ j (cur.get ⟨j, hj⟩) (by omega)
        ((diffPairs_mem cur last j _).mpr ⟨hj, hv, heq⟩) (fun w hw => ?_), hv]
      rcases (diffPairs_mem cur last j w).mp hw with ⟨_, hc2, _⟩
      rw [hv] at hc2
      injection hc2 with hc3
      exact hc3.symm
  · rw [applyPairs_getElem?_of_forall_ne _ _ j (fun p hp hpj => ?_)]
    · rw [List.getElem?_eq_none (by omega), List.getElem?_eq_none (by omega)]
    · rcases p with ⟨pi, pv⟩
      have hpj2 : pi = j := hpj
      subst hpj2
      rcases (diffPairs_mem cur last pi pv).mp hp with ⟨hlt, _, _⟩
      exact hj hlt

/-- Element access in a flat map of uniform chunk length. -/
lemma flatMap_getElem? {α β : Type} (l : List α) (g : α → List β) (L : Nat)
    (hg : ∀ a, (g a).length = L) (hL : 0 < L) (k : Nat) :
    (l.flatMap g)[k]? = (l[k / L]?).bind fun a => (g a)[k % L]? := by
  induction l generalizing k with
  | nil => simp
  | cons a t ih =>
    rw [List.flatMap_cons]
    by_cases hk : k < L
    · rw [List.getElem?_append, if_pos (by rw [hg]; exact hk)]
      rw [Nat.div_eq_of_lt hk, Nat.mod_eq_of_lt hk]
      simp
    · push_neg at hk
      obtain ⟨j, rfl⟩ : ∃ j, k = j + L := ⟨k - L, by omega⟩
      rw [List.getElem?_append_right (by rw [hg]; omega), hg]
      have h3 : j + L - L = j := by omega
      rw [h3, ih j]
      rw [Nat.add_div_right j hL, Nat.add_mod_right j L]
      simp

/-- Length of the rendered grid. -/
lemma renderText_length (ci : List Nat) (w h : Nat) (cs : List Char) :
    (renderText ci w h cs).length = h * (w + 1) := by
  unfold renderText
  rw [length_flatMap_const _ _ (w + 1) (fun r _ => by simp)]
  simp

/-- Element access in the rendered grid: within bounds, a column below
`w` shows the charset image of the stored index and column `w` shows
the newline. -/
lemma renderText_getElem? (ci : List Nat) (w h : Nat) (cs : List Char) (k : Nat) :
    (renderText ci w h cs)[k]? =
      if k / (w + 1) < h then
        (if k % (w + 1) < w then
          some (cs.getD (ci.getD ((k / (w + 1)) * w + k % (w + 1)) 0) ' ')
         else some '\n')
      else none := by
  unfold renderText
  rw [flatMap_getElem? _ _ (w + 1) (fun r => by simp) (by omega) k]
  by_cases hr : k / (w + 1) < h
  · rw [if_pos hr, List.getElem?_range hr]
    rw [Option.some_bind]
    by_cases hc : k % (w + 1) < w
    · rw [if_pos hc]
      rw [List.getElem?_append, if_pos (by simp [hc])]
      rw [List.getElem?_map]
      rw [List.getElem?_range hc]
      rfl
    · rw [if_neg hc]
      have hcw : k % (w + 1) = w := by
        have := Nat.mod_lt k (show 0 < w + 1 by omega)
        omega
      rw [List.getElem?_append_right (by simp [hcw])]
      simp [hcw]
  · rw [if_neg hr, List.getElem?_eq_none (by simp; omega)]
    rfl

/-- Setting one palette index and patching the corresponding text
position (through the newline-aware index translation) commute with
rendering. -/
lemma renderText_set (ci : List Nat) (w h : Nat) (cs : List Char) (i v : Nat)
    (hlen : ci.length = w * h) (hi : i < w * h) :
    (renderText ci w h cs).set (toTextIdx i w) (cs.getD v ' ') =
      renderText (ci.set i v) w h cs := by
  have hw : 0 < w := by
    rcases Nat.eq_zero_or_pos w with h0 | h0
    · rw [h0] at hi
      simp at hi
    · exact h0
  have hrow : i / w < h := Nat.div_lt_of_lt_mul (by omega)
  have hcol : i % w < w := Nat.mod_lt _ hw
  have hdiv : toTextIdx i w / (w + 1) = i / w := by
    unfold toTextIdx
    rw [mul_comm (i / w) (w + 1), Nat.mul_add_div (by omega),
      Nat.div_eq_of_lt (show i % w < w + 1 by omega)]
    exact Nat.add_zero _
  have hmod : toTextIdx i w % (w + 1) = i % w := by
    unfold toTextIdx
    rw [mul_comm (i / w) (w + 1), Nat.mul_add_mod]
    exact Nat.mod_eq_of_lt (by omega)
  apply List.ext_getElem?
  intro k
  by_cases hk : k = toTextIdx i w
  · subst hk
    have hklt : toTextIdx i w < (renderText ci w h cs).length := by
      have h1 : toTextIdx i w < (i / w + 1) * (w + 1) := by
        unfold toTextIdx
        have h2 : (i / w + 1) * (w + 1) = (i / w) * (w + 1) + (w + 1) := by ring
        omega
      have h3 : (i / w + 1) * (w + 1) ≤ h * (w + 1) :=
        Nat.mul_le_mul_right _ (by omega)
      rw [renderText_length]
      omega
    rw [List.getElem?_set_self hklt, renderText_getElem?, hdiv, hmod,
      if_pos hrow, if_pos hcol]
    have hi2 : i / w * w + i % w = i := by
      rw [mul_comm]
      exact Nat.div_add_mod i w
    rw [hi2]
    have hset : (ci.set i v).getD i 0 = v := by
      rw [List.getD_eq_getElem?_getD, List.getElem?_set_self (by omega)]
      rfl
    rw [hset]
  · rw [List.getElem?_set_ne (fun he => hk he.symm), renderText_getElem?, renderText_getElem?]
    by_cases hr : k / (w + 1) < h
    · rw [if_pos hr, if_pos hr]
      by_cases hc : k % (w + 1) < w
      · rw [if_pos hc, if_pos hc]
        have hne : k / (w + 1) * w + k % (w + 1) ≠ i := by
          intro he
          apply hk
          have hdk := Nat.div_add_mod k (w + 1)
          have hdi : i / w = k / (w + 1) := by
            rw [← he, mul_comm (k / (w + 1)) w, Nat.mul_add_div hw, Nat.div_eq_of_lt hc]
            exact Nat.add_zero _
          have hmi : i % w = k % (w + 1) := by
            rw [← he, mul_comm (k / (w + 1)) w, Nat.mul_add_mod]
            exact Nat.mod_eq_of_lt hc
          unfold toTextIdx
          rw [hdi, hmi, mul_comm]
          exact hdk.symm
        have hgd : (ci.set i v).getD (k / (w + 1) * w + k % (w + 1)) 0 =
            ci.getD (k / (w + 1) * w + k % (w + 1)) 0 := by
          rw [List.getD_eq_getElem?_getD, List.getD_eq_getElem?_getD,
            List.getElem?_set_ne (fun he => hne he.symm)]
        rw [hgd]
      · rw [if_neg hc, if_neg hc]
    · rw [if_neg hr, if_neg hr]

/-- Patching a rendered grid at translated text positions with charset
images of new indices renders the patched indices. -/
lemma applyPairs_renderText (w h : Nat) (cs : List Char) (ps : List (Nat × Nat)) :
    ∀ ci : List Nat, ci.length = w * h → (∀ p ∈ ps, p.1 < w * h) →
    applyPairs (renderText ci w h cs) (ps.map fun p => (toTextIdx p.1 w, cs.getD p.2 ' ')) =
      renderText (applyPairs ci ps) w h cs := by
  induction ps with
  | nil =>
    intro ci _ _
    rfl
  | cons p t ih =>
    intro ci hlen hps
    rw [List.map_cons, applyPairs_cons, applyPairs_cons]
    rw [renderText_set ci w h cs p.1 p.2 hlen (hps p (List.mem_cons_self ..))]
    exact ih (ci.set p.1 p.2) (by rw [List.length_set]; exact hlen)
      (fun q hq => hps q (List.mem_cons_of_mem _ hq))

/-- An empty color diff patches nothing. -/
lemma applyDelta_cd_empty (f : Frame) (td : Option (List (Nat × Char)))
    (id : Option (List (Nat × Nat))) :
    applyDelta f (some []) td id = applyDelta f none td id := by
  unfold applyDelta
  dsimp only
  have h : f.colors.map (fun cl => applyPairs cl []) = f.colors := by
    cases f.colors <;> rfl
  rw [h]

/-- An empty index diff patches nothing. -/
lemma applyDelta_id_empty (f : Frame) (cd : Option (List (Nat × Int)))
    (td : Option (List (Nat × Char))) :
    applyDelta f cd td (some []) = applyDelta f cd td none := by
  cases cd <;> cases td <;> rfl

/-- The emptiness guards of the encoder do not change the result of
delta application: a diff field omitted because the diff is empty
patches exactly like the empty diff itself. -/
lemma applyDelta_ite (f : Frame) (ps : List (Nat × Int)) (qs : List (Nat × Nat)) :
    applyDelta f (if ps.length > 0 then some ps else none) none
        (if qs.length > 0 then some qs else none) =
      applyDelta f (some ps) none (some qs) := by
  by_cases h1 : ps.length > 0
  · rw [if_pos h1]
    by_cases h2 : qs.length > 0
    · rw [if_pos h2]
    · have hq : qs = [] := by
        rcases qs with _ | ⟨q, qs⟩
        · rfl
        · simp at h2
      subst hq
      rw [if_neg h2, applyDelta_id_empty]
  · have hp : ps = [] := by
      rcases ps with _ | ⟨p, ps⟩
      · rfl
      · simp at h1
    subst hp
    rw [if_neg h1]
    by_cases h2 : qs.length > 0
    · rw [if_pos h2, applyDelta_cd_empty]
    · have hq : qs = [] := by
        rcases qs with _ | ⟨q, qs⟩
        · rfl
        · simp at h2
      subst hq
      rw [if_neg h2, applyDelta_cd_empty, applyDelta_id_empty]

/-- Delta application with both diff fields present, on a frame with a
usable charset: colors, text and palette indices are each patched. -/
lemma applyDelta_some_some (f : Frame) (ps : List (Nat × Int)) (qs : List (Nat × Nat))
    (hcs : f.charset ≠ []) :
    applyDelta f (some ps) none (some qs) =
      { f with colors := f.colors.map (fun cl => applyPairs cl ps),
               text := applyPairs f.text
                 (qs.map fun p => (toTextIdx p.1 f.width, f.charset.getD p.2 ' ')),
               charIndices := applyPairs f.charIndices qs } := by
  unfold applyDelta
  dsimp only
  rw [if_neg hcs]

/-- C1 amended: for two consecutive well-formed frames of equal width,
height and charset (the charset non-empty) whose colors arrays are
either both absent or both present, applying the delta record computed
by the encoder to the reconstruction of the first frame yields exactly
the second frame: its palette indices, colors and text all match. -/
theorem deltaEquivalence (A B : Frame) (t : Nat)
    (hA : FrameWF A) (hB : FrameWF B)
    (hw : A.width = B.width) (hh : A.height = B.height) (hcs : A.charset = B.charset)
    (hcsne : A.charset ≠ [])
    (hcol : (A.colors = none ∧ B.colors = none) ∨
      (∃ ca cb, A.colors = some ca ∧ B.colors = some cb)) :
    applyRecordData (some A) (computeDelta A B t) = some B := by
  rcases A with ⟨At, Aci, Aco, Aw, Ah, Acs⟩
  rcases B with ⟨Bt, Bci, Bco, Bw, Bh, Bcs⟩
  obtain ⟨hAlen, hAcol, hAtext⟩ := hA
  obtain ⟨hBlen, hBcol, hBtext⟩ := hB
  dsimp only at hAlen hAcol hAtext hBlen hBcol hBtext hw hh hcs hcsne hcol ⊢
  subst hw
  subst hh
  subst hcs
  have hcilen : Aci.length = Bci.length := by rw [hAlen, hBlen]
  have hci : applyPairs Aci (diffPairs Bci Aci) = Bci :=
    applyPairs_diffPairs Bci Aci hcilen
  have hpslt : ∀ p ∈ diffPairs Bci Aci, p.1 < Aw * Ah := by
    intro p hp
    rcases p with ⟨pi, pv⟩
    rcases (diffPairs_mem Bci Aci pi pv).mp hp with ⟨hlt, _, _⟩
    rw [hBlen] at hlt
    exact hlt
  have htext : applyPairs (renderText Aci Aw Ah Acs) ((diffPairs Bci Aci).map
      fun p => (toTextIdx p.1 Aw, Acs.getD p.2 ' ')) = renderText Bci Aw Ah Acs := by
    rw [applyPairs_renderText Aw Ah Acs (diffPairs Bci Aci) Aci hAlen hpslt, hci]
  rcases hcol with ⟨hA0, hB0⟩ | ⟨ca, cb, hAc, hBc⟩
  · subst hA0
    subst hB0
    have hrec : computeDelta ⟨At, Aci, none, Aw, Ah, Acs⟩ ⟨Bt, Bci, none, Aw, Ah, Acs⟩ t =
        Record.delta t (if ([] : List (Nat × Int)).length > 0 then some [] else none) none
          (if (diffPairs Bci Aci).length > 0 then some (diffPairs Bci Aci) else none) := rfl
    rw [hrec]
    show some (applyDelta ⟨At, Aci, none, Aw, Ah, Acs⟩ _ none _) = _
    rw [applyDelta_ite, applyDelta_some_some _ _ _ hcsne]
    dsimp only
    rw [hci, hAtext, htext, hBtext]
    rfl
  · subst hAc
    subst hBc
    have hcolen : ca.length = cb.length := by
      rw [hAcol ca rfl, hBcol cb rfl]
    have hcolors : applyPairs ca (diffPairs cb ca) = cb :=
      applyPairs_diffPairs cb ca hcolen
    have hrec : computeDelta ⟨At, Aci, some ca, Aw, Ah, Acs⟩ ⟨Bt, Bci, some cb, Aw, Ah, Acs⟩ t =
        Record.delta t
          (if (diffPairs cb ca).length > 0 then some (diffPairs cb ca) else none) none
          (if (diffPairs Bci Aci).length > 0 then some (diffPairs Bci Aci) else none) := rfl
    rw [hrec]
    show some (applyDelta ⟨At, Aci, some ca, Aw, Ah, Acs⟩ _ none _) = _
    rw [applyDelta_ite, applyDelta_some_some _ _ _ hcsne]
    dsimp only
    rw [hci, hAtext, htext, hBtext]
    dsimp only [Option.map]
    rw [hcolors]

/-- Counterexample for C1 as stated: two consecutive one-cell frames of
equal dimensions but different charsets.  The delta stores only the new
palette index; the decoder renders it through the charset of the
reconstruction, so the patched text shows the old charset image, not
the text of the second frame. -/
theorem deltaEquivalenceClaim_cex :
    applyRecordData (some ⟨['a', '\n'], [0], none, 1, 1, ['a', 'b']⟩)
        (computeDelta ⟨['a', '\n'], [0], none, 1, 1, ['a', 'b']⟩
          ⟨['d', '\n'], [1], none, 1, 1, ['c', 'd']⟩ 5) =
      some ⟨['b', '\n'], [1], none, 1, 1, ['a', 'b']⟩ ∧
    some (Frame.mk ['b', '\n'] [1] none 1 1 ['a', 'b']) ≠
      some ⟨['d', '\n'], [1], none, 1, 1, ['c', 'd']⟩ := by
  constructor
  · decide
  · decide

/-- Witness for C1 amended: two one-cell frames sharing the charset,
with colors present on both sides. -/
theorem deltaEquivalence_witness :
    FrameWF ⟨['a', '\n'], [0], some [2], 1, 1, ['a', 'b']⟩ ∧
    FrameWF ⟨['b', '\n'], [1], some [7], 1, 1, ['a', 'b']⟩ ∧
    applyRecordData (some ⟨['a', '\n'], [0], some [2], 1, 1, ['a', 'b']⟩)
        (computeDelta ⟨['a', '\n'], [0], some [2], 1, 1, ['a', 'b']⟩
          ⟨['b', '\n'], [1], some [7], 1, 1, ['a', 'b']⟩ 9) =
      some ⟨['b', '\n'], [1], some [7], 1, 1, ['a', 'b']⟩ :=
  ⟨⟨rfl, fun cl hcl => by cases hcl; rfl, rfl⟩,
   ⟨rfl, fun cl hcl => by cases hcl; rfl, rfl⟩,
   deltaEquivalence _ _ 9 ⟨rfl, fun cl hcl => by cases hcl; rfl, rfl⟩
     ⟨rfl, fun cl hcl => by cases hcl; rfl, rfl⟩ rfl rfl rfl (by decide)
     (Or.inr ⟨[2], [7], rfl, rfl⟩)⟩

